import Mathlib

/-!
Verification of the manifest/registry subsystem of the repository
(`examples/python_code_agent/manifest_generator.py`) against its
natural-language specification.

The Python code is shallowly embedded: JSON documents become the `Json`
inductive below, Python `dict`s become association lists with
insertion-order-preserving update semantics, and the recursive reference
inliner (which has no termination guarantee in the source) becomes a
fuel-indexed function returning `Option` where `none` models
non-termination or a runtime error.
-/

/-- A JSON-like document, the shape of `pydantic`'s `model_json_schema()`
output and of the manifest dictionaries built by the generator.
Objects are association lists in insertion order, matching Python dicts. -/
inductive Json where
  | str (s : String)
  | num (n : Int)
  | bool (b : Bool)
  | null
  | arr (items : List Json)
  | obj (kvs : List (String × Json))

/-- Python `d[k]` / `d.get(k)` on an association list. -/
def pyLookup {α : Type} (kvs : List (String × α)) (k : String) : Option α :=
  (kvs.find? (fun kv => kv.1 = k)).map (fun kv => kv.2)

/-- Python `k in d`. -/
def pyContains {α : Type} (kvs : List (String × α)) (k : String) : Bool :=
  (pyLookup kvs k).isSome

/-- Python `d[k] = v`: replace in place if the key exists (keeping its
position, as Python dicts do), otherwise append. -/
def pySet {α : Type} : List (String × α) → String → α → List (String × α)
  | [], k, v => [(k, v)]
  | (k', v') :: rest, k, v =>
    if k' = k then (k', v) :: rest else (k', v') :: pySet rest k v

/-- Python `d.update(other)`: apply `pySet` for each pair of `other` in order. -/
def pyUpdate {α : Type} (d other : List (String × α)) : List (String × α) :=
  other.foldl (fun acc kv => pySet acc kv.1 kv.2) d

/-- Python `del d[k]`. -/
def pyDelete {α : Type} (d : List (String × α)) (k : String) : List (String × α) :=
  d.filter (fun kv => kv.1 ≠ k)

/-- Python `text.split(sep)` for a one-character separator, on character
lists: every separator occurrence cuts, so `"a/b/".split("/")` has a
trailing empty group and `"".split("/")` is one empty group. -/
def splitOnChar (sep : Char) : List Char → List (List Char)
  | [] => [[]]
  | c :: rest =>
    let r := splitOnChar sep rest
    if c = sep then [] :: r
    else
      match r with
      | [] => [[c]]
      | g :: gs => (c :: g) :: gs

/-- `schema["$ref"].split("/")[-1]` from `_inline_references`. -/
def ref_name (r : String) : String :=
  String.mk ((splitOnChar '/' r.data).getLastD [])

mutual

/-- Embedding of `AgentRegistry._inline_references`.  The source recurses
with no fuel and no visited set; here `fuel` bounds the recursion depth and
`none` models a computation that never returns (or a runtime type error on
a non-string `$ref`).  A non-dict argument is returned unchanged; a dict
carrying `$ref` is replaced by the recursively inlined definition body when
the name is in the registry's `schema_definitions`, and returned unchanged
otherwise; any other dict is rebuilt key by key, dropping `$defs` keys and
recursing into dict values and into the elements of list values. -/
def inline_references (defs : List (String × Json)) : Nat → Json → Option Json
  | 0, _ => none
  | fuel + 1, .obj kvs =>
    match pyLookup kvs "$ref" with
    | some (.str r) =>
      match pyLookup defs (ref_name r) with
      | some body => inline_references defs fuel body
      | none => some (.obj kvs)
    | some _ => none
    | none => (inlineKvs defs fuel kvs).map Json.obj
  | _ + 1, s => some s

/-- The dict-comprehension of `_inline_references`: drop `$defs` entries,
map `_inline_references` over the items of list values, recurse into the
rest. -/
def inlineKvs (defs : List (String × Json)) : Nat → List (String × Json) →
    Option (List (String × Json))
  | 0, _ => none
  | _ + 1, [] => some []
  | fuel + 1, (k, v) :: rest =>
    if k = "$defs" then inlineKvs defs fuel rest
    else
      match v with
      | .arr items => do
        let items' ← inlineItems defs fuel items
        let rest' ← inlineKvs defs fuel rest
        some ((k, Json.arr items') :: rest')
      | _ => do
        let v' ← inline_references defs fuel v
        let rest' ← inlineKvs defs fuel rest
        some ((k, v') :: rest')

/-- `[self._inline_references(item) for item in value]`. -/
def inlineItems (defs : List (String × Json)) : Nat → List Json →
    Option (List Json)
  | 0, _ => none
  | _ + 1, [] => some []
  | fuel + 1, item :: rest => do
    let item' ← inline_references defs fuel item
    let rest' ← inlineItems defs fuel rest
    some (item' :: rest')

end

/-- Embedding of `AgentRegistry._extract_schema`: given the registry's
accumulated `schema_definitions` and a model's raw JSON schema (a dict),
merge the schema's `$defs` into the table, delete the `$defs` key, and
inline references against the updated table.  Returns the updated table
together with the inlined schema (`none` on non-termination, or when
`$defs` is not a dict, which raises in Python). -/
def extract_schema (defs : List (String × Json)) (schema : List (String × Json))
    (fuel : Nat) : List (String × Json) × Option Json :=
  match pyLookup schema "$defs" with
  | some (.obj dkvs) =>
    let defs' := pyUpdate defs dkvs
    (defs', inline_references defs' fuel (.obj (pyDelete schema "$defs")))
  | some _ => (defs, none)
  | none => (defs, inline_references defs fuel (.obj schema))

/-- The regex class `\w` of `slugify`, on the ASCII range the code's names
live in: letters, digits, underscore. -/
def pyIsWordChar (c : Char) : Bool := c.isAlphanum || c = '_'

/-- The regex class `\s`: Python whitespace. -/
def pyIsSpace (c : Char) : Bool :=
  c = ' ' || c = '\t' || c = '\n' || c = '\r' || c = '\x0b' || c = '\x0c'

/-- The regex class `[-\s]` of `slugify`'s second substitution. -/
def isSep (c : Char) : Bool := c = '-' || pyIsSpace c

/-- Collapse adjacent hyphens into one; together with mapping every
separator to a hyphen first, this is `re.sub(r'[-\s]+', '-', text)`:
each maximal run of separators becomes a single hyphen. -/
def squeezeHyphens : List Char → List Char
  | [] => []
  | [c] => [c]
  | c1 :: c2 :: rest =>
    if c1 = '-' && c2 = '-' then squeezeHyphens (c2 :: rest)
    else c1 :: squeezeHyphens (c2 :: rest)

/-- Python `text.strip('-')` on a character list. -/
def stripHyphens (cs : List Char) : List Char :=
  ((cs.dropWhile (fun c => c = '-')).reverse.dropWhile (fun c => c = '-')).reverse

/-- Embedding of `slugify`: lowercase, delete characters outside
`[^\w\s-]`, collapse separator runs to single hyphens, strip leading and
trailing hyphens. -/
def slugify (text : String) : String :=
  let lowered := text.data.map Char.toLower
  let stripped := lowered.filter (fun c => pyIsWordChar c || pyIsSpace c || c = '-')
  let hyphened := squeezeHyphens (stripped.map (fun c => if isSep c then '-' else c))
  String.mk (stripHyphens hyphened)

/-- The fields of `ActionEndpointInfo` that the manifest generator reads.
`input_schema` / `output_schema` stand for the raw
`model_json_schema()` dicts of `input_model` / `output_model`, and
`schema_definitions` for the extra named types' schemas registered with
the endpoint. -/
structure ActionEndpointInfo where
  name : String
  description : String
  action_type : String
  response_template_md : Option String
  input_schema : List (String × Json)
  output_schema : List (String × Json)
  schema_definitions : List (String × Json)
  examples : Option Json
  route_path : String

/-- The mutable per-agent state of `AgentRegistry`. -/
structure AgentRegistryState where
  base_url : String
  name : String
  slug : String
  version : String
  description : String
  capabilities : List Json
  workflows : List Json
  action_endpoints : List (String × ActionEndpointInfo)
  schema_definitions : List (String × Json)

/-- Embedding of `AgentRegistry._format_action_endpoint` (without the
response-template file read, which is disk I/O): extract and inline the
input schema, then the output schema — both calls thread and mutate the
registry's `schema_definitions` — and build the action dict in the key
order of the source.  `none` models a non-terminating extraction. -/
def format_action_endpoint (defs : List (String × Json))
    (info : ActionEndpointInfo) (fuel : Nat) :
    List (String × Json) × Option Json :=
  match extract_schema defs info.input_schema fuel with
  | (d1, none) => (d1, none)
  | (d1, some inSchema) =>
    match extract_schema d1 info.output_schema fuel with
    | (d2, none) => (d2, none)
    | (d2, some outSchema) =>
      (d2, some (.obj [
        ("name", .str info.name),
        ("slug", .str (slugify info.name)),
        ("actionType", .str info.action_type),
        ("path", .str info.route_path),
        ("method", .str "POST"),
        ("inputSchema", inSchema),
        ("outputSchema", outSchema),
        ("examples", info.examples.getD (.obj [("validRequests", .arr [])])),
        ("description", .str info.description),
        ("isMDResponseEnabled", .bool info.response_template_md.isSome)]))

/-- The list comprehension of `generate_manifest`: format every endpoint
in insertion order of `action_endpoints`, threading the registry's
`schema_definitions` through the `_extract_schema` calls. -/
def formatActions (fuel : Nat) : List (String × ActionEndpointInfo) →
    List (String × Json) → Option (List (String × Json) × List Json)
  | [], defs => some (defs, [])
  | (_, info) :: rest, defs =>
    match format_action_endpoint defs info fuel with
    | (d1, some a) =>
      (formatActions fuel rest d1).map (fun p => (p.1, a :: p.2))
    | (_, none) => none

/-- Embedding of `AgentRegistry.generate_manifest`: build the manifest
dict in the source's key order, with `workflows` appended only when the
workflow list is non-empty.  Returns the manifest together with the
registry state after the call (whose `schema_definitions` have absorbed
every `$defs` block met along the way). -/
def generate_manifest (reg : AgentRegistryState) (fuel : Nat) :
    Option (Json × AgentRegistryState) :=
  match formatActions fuel reg.action_endpoints reg.schema_definitions with
  | none => none
  | some (defs', actions) =>
    some (.obj ([
      ("name", .str reg.name),
      ("slug", .str reg.slug),
      ("version", .str reg.version),
      ("type", .str "external"),
      ("description", .str reg.description),
      ("baseUrl", .str reg.base_url),
      ("metaInfo", .obj []),
      ("capabilities", .arr reg.capabilities),
      ("actions", .arr actions)] ++
      (if reg.workflows.isEmpty then [] else [("workflows", .arr reg.workflows)])),
      { reg with schema_definitions := defs' })

/-- The `path` field of one rendered action. -/
def actionPathOf (a : Json) : Option String :=
  match a with
  | .obj akvs =>
    match pyLookup akvs "path" with
    | some (.str p) => some p
    | _ => none
  | _ => none

/-- The `path` of every entry of a manifest's `actions` list. -/
def manifestActionPaths (m : Json) : Option (List String) :=
  match m with
  | .obj kvs =>
    match pyLookup kvs "actions" with
    | some (.arr actions) => actions.mapM actionPathOf
    | _ => none
  | _ => none

/-- A field of a manifest dict. -/
def manifestField (m : Json) (k : String) : Option Json :=
  match m with
  | .obj kvs => pyLookup kvs k
  | _ => none

/-- The process-wide `agent_registries` table, slug to registry. -/
def Registries := List (String × AgentRegistryState)

mutual

/-- A FastAPI application as `setup_agent_routes` sees it: an optional
`app.state.agent_registry` (identified by its slug in the global table)
and a route list. -/
inductive AppNode where
  | mk (registry : Option String) (routes : List RouteNode) : AppNode

/-- A route as the walker sees it: a mount of a sub-application, a plain
route whose endpoint carries no `_endpoint_info`, or a decorated action
route. -/
inductive RouteNode where
  | mount (path : String) (app : AppNode) : RouteNode
  | plain (path : String) : RouteNode
  | actionRoute (path : String) (info : ActionEndpointInfo) : RouteNode

end

/-- `str(route.path).rstrip("/")`. -/
def rstripSlash (s : String) : String :=
  String.mk ((s.data.reverse.dropWhile (fun c => c = '/')).reverse)

/-- Embedding of `AgentRegistry.register_action_endpoint`: store the
endpoint (with its `route_path` already set to the full path, as the
walker assigns it just before registering) under the full path, and merge
the endpoint's extra schema definitions into the registry's table. -/
def register_action_endpoint (st : Registries) (slug path : String)
    (info : ActionEndpointInfo) : Registries :=
  st.map (fun sr =>
    if sr.1 = slug then
      (sr.1, { sr.2 with
        action_endpoints :=
          pySet sr.2.action_endpoints path { info with route_path := path },
        schema_definitions :=
          pyUpdate sr.2.schema_definitions info.schema_definitions })
    else sr)

/-- The inner loop of `register_routes`: for every direct route of a
mounted agent app whose endpoint carries `_endpoint_info`, register it
under `mounted_prefix + route.path`. -/
def registerDirect (st : Registries) (slug pre : String) :
    List RouteNode → Registries
  | [] => st
  | .actionRoute p info :: rest =>
    registerDirect (register_action_endpoint st slug (pre ++ p) info) slug pre rest
  | _ :: rest => registerDirect st slug pre rest

/-- Embedding of the recursive `register_routes` closure of
`setup_agent_routes`: only mount nodes are acted on; a mounted app that
declares a registry gets its direct decorated routes registered, and the
walk always recurses into the mounted app's routes under the extended
path. -/
def register_routes (st : Registries) :
    List RouteNode → String → Registries
  | [], _ => st
  | .mount p (.mk oreg aroutes) :: rest, pre =>
    let mountedPre := pre ++ rstripSlash p
    let st1 := match oreg with
      | some slug => registerDirect st slug mountedPre aroutes
      | none => st
    let st2 := register_routes st1 aroutes mountedPre
    register_routes st2 rest pre
  | _ :: rest, pre => register_routes st rest pre

/-- `for reg in agent_registries.values(): reg.action_endpoints.clear()`. -/
def clearEndpoints (st : Registries) : Registries :=
  st.map (fun sr => (sr.1, { sr.2 with action_endpoints := [] }))

/-- Embedding of `setup_agent_routes` (without the `@app.get` route
additions, which never touch any registry): clear every registry's
endpoint map, then re-walk the whole mounted-application tree. -/
def setup_agent_routes (st : Registries) (app : AppNode) : Registries :=
  match app with
  | .mk _ routes => register_routes (clearEndpoints st) routes ""

/-- The `action_endpoints` tables of all registries: what claim C3
compares between one and two runs of the walk. -/
def endpointsView (st : Registries) :
    List (String × List (String × ActionEndpointInfo)) :=
  st.map (fun sr => (sr.1, sr.2.action_endpoints))

/-- A Python annotation object as the decorator inspects it: a pydantic
model class (which has `model_json_schema` and is a `BaseModel`
subclass), a parameterized generic (has `__origin__`, `__args__`), or any
other class. -/
inductive PyAnnot where
  | model (name : String)
  | generic (inner : PyAnnot)
  | plain (name : String)

/-- `hasattr(param.annotation, 'model_json_schema')`. -/
def hasModelJsonSchemaAttr : PyAnnot → Bool
  | .model _ => true
  | _ => false

/-- Whether the annotation is accepted by pydantic's validation of a
`Type[BaseModel]` field. -/
def isBaseModelSubclass : PyAnnot → Bool
  | .model _ => true
  | _ => false

/-- A handler as `agent_action` introspects it: its `__name__`, the
annotations of its declared parameters in order, and its return
annotation if present. -/
structure Handler where
  name : String
  params : List PyAnnot
  ret : Option PyAnnot

/-- `next((param.annotation for param in sig.parameters.values() if
hasattr(param.annotation, 'model_json_schema')), None)`. -/
def resolveInputModel (h : Handler) : Option PyAnnot :=
  h.params.find? hasModelJsonSchemaAttr

/-- The `output_model` expression of `agent_action`: unwrap one generic
layer via `__args__[0]` when the return annotation has `__origin__`,
otherwise take the annotation itself; `None` when there is no return
annotation. -/
def resolveOutputModel (h : Handler) : Option PyAnnot :=
  match h.ret with
  | some (.generic inner) => some inner
  | some a => some a
  | none => none

/-- The data of the `pydantic.ValidationError` raised when
`ActionEndpointInfo(...)` is constructed with invalid fields: the title
of the model being validated and the offending field locations.  The
handler's `__name__` is never passed to the constructor, so it cannot
appear in the error. -/
structure PydanticValidationError where
  model_title : String
  fields : List String

/-- Render the validation error the way pydantic presents it: model
title plus field locations. -/
def renderValidationError (e : PydanticValidationError) : String :=
  toString e.fields.length ++ " validation error for " ++ e.model_title ++
    ": " ++ String.intercalate ", " e.fields

/-- The wrapper returned on successful decoration, carrying the resolved
`_endpoint_info` types. -/
structure DecoratedEndpoint where
  handler_name : String
  input_model : PyAnnot
  output_model : PyAnnot

/-- Whether an optional resolved annotation passes validation of a
`Type[BaseModel]` field (a missing resolution is `None`, which fails). -/
def validModelField : Option PyAnnot → Bool
  | some a => isBaseModelSubclass a
  | none => false

/-- Embedding of the `agent_action` decorator applied to a handler:
resolve the input model (first parameter exposing `model_json_schema`)
and the output model (return annotation, one generic layer unwrapped),
then construct `ActionEndpointInfo`, whose pydantic validation rejects
any field that is not a `BaseModel` subclass.  The error carries the
validated model's title and field names, nothing about the handler. -/
def agent_action (h : Handler) : Except PydanticValidationError DecoratedEndpoint :=
  let im := resolveInputModel h
  let om := resolveOutputModel h
  if validModelField im && validModelField om then
    match im, om with
    | some i, some o => .ok ⟨h.name, i, o⟩
    | _, _ => .error ⟨"ActionEndpointInfo", ["input_model", "output_model"]⟩
  else
    .error ⟨"ActionEndpointInfo",
      (if validModelField im then [] else ["input_model"]) ++
      (if validModelField om then [] else ["output_model"])⟩

/-- Contiguous-sublist test used to state that an error message does not
mention the handler. -/
def startsWithChars : List Char → List Char → Bool
  | _, [] => true
  | [], _ :: _ => false
  | h :: hs, s :: ss => h = s && startsWithChars hs ss

/-- Whether `sub` occurs contiguously inside `hay`. -/
def containsChars : List Char → List Char → Bool
  | hay, sub =>
    startsWithChars hay sub ||
      match hay with
      | [] => false
      | _ :: t => containsChars t sub

/-- Whether string `sub` occurs inside string `s`. -/
def strContains (s sub : String) : Bool :=
  containsChars s.data sub.data

mutual

/-- Whether a document contains the key `key` in any object at any depth. -/
def hasKeyJ (key : String) : Json → Bool
  | .obj kvs => hasKeyKvs key kvs
  | .arr items => hasKeyList key items
  | _ => false

def hasKeyKvs (key : String) : List (String × Json) → Bool
  | [] => false
  | (k, v) :: rest => k = key || hasKeyJ key v || hasKeyKvs key rest

def hasKeyList (key : String) : List Json → Bool
  | [] => false
  | item :: rest => hasKeyJ key item || hasKeyList key rest

end

mutual

/-- Whether a document contains, at any depth, a `$ref` whose referenced
name is present in the definitions table `defs` — i.e. a reference the
inliner would have been able to resolve. -/
def hasResRefJ (defs : List (String × Json)) : Json → Bool
  | .obj kvs =>
    (match pyLookup kvs "$ref" with
     | some (.str r) => pyContains defs (ref_name r)
     | _ => false) || hasResRefKvs defs kvs
  | .arr items => hasResRefList defs items
  | _ => false

def hasResRefKvs (defs : List (String × Json)) : List (String × Json) → Bool
  | [] => false
  | (_, v) :: rest => hasResRefJ defs v || hasResRefKvs defs rest

def hasResRefList (defs : List (String × Json)) : List Json → Bool
  | [] => false
  | item :: rest => hasResRefJ defs item || hasResRefList defs rest

end

/-- Whether a dict is exactly a one-entry `$ref` node with a string
reference. -/
def isRefNodeOk : List (String × Json) → Bool
  | [(k, .str _)] => k = "$ref"
  | _ => false

/-- Whether a document is a JSON array.  `_inline_references` returns
non-dict arguments unchanged, so an array sitting directly inside
another array is never descended into; pydantic schemas never nest
arrays directly in arrays, and the cleanliness predicate records that. -/
def isArrJ : Json → Bool
  | .arr _ => true
  | _ => false

mutual

/-- The shape discipline of pydantic's schema output that claim C2 relies
on: every object node carrying a `$ref` is exactly the one-entry dict
whose sole value is the reference string. -/
def refCleanJ : Json → Bool
  | .obj kvs =>
    if pyContains kvs "$ref" then isRefNodeOk kvs else refCleanKvs kvs
  | .arr items => refCleanList items
  | _ => true

def refCleanKvs : List (String × Json) → Bool
  | [] => true
  | (_, v) :: rest => refCleanJ v && refCleanKvs rest

def refCleanList : List Json → Bool
  | [] => true
  | item :: rest => !isArrJ item && refCleanJ item && refCleanList rest

end

/-- Every schema body in a definitions table is ref-clean and is not a
bare array. -/
def defsClean (defs : List (String × Json)) : Bool :=
  defs.all (fun kv => refCleanJ kv.2 && !isArrJ kv.2)

/-- Every schema body in a definitions table is free of the key `key`. -/
def defsKeyFree (key : String) (defs : List (String × Json)) : Bool :=
  defs.all (fun kv => !hasKeyJ key kv.2)

/-! ## Concrete inputs used by the claims -/

/-- A self-referential definitions table: the registered type `Node`
refers to itself. -/
def cycDefs : List (String × Json) :=
  [("Node", Json.obj [("$ref", Json.str "#/$defs/Node")])]

/-- A schema whose `$ref` resolves, through `cycDefs`, back to itself. -/
def cycSchema : Json := Json.obj [("$ref", Json.str "#/$defs/Node")]

/-- A minimal schema with no references. -/
def trivSchema : List (String × Json) := [("type", Json.str "object")]

/-- Endpoint registered under path `/b`. -/
def epB : ActionEndpointInfo :=
  { name := "Beta", description := "second action", action_type := "talk",
    response_template_md := none, input_schema := trivSchema,
    output_schema := trivSchema, schema_definitions := [], examples := none,
    route_path := "/b" }

/-- Endpoint registered under path `/a`, after `/b`. -/
def epA : ActionEndpointInfo :=
  { epB with name := "Alpha", description := "first action", route_path := "/a" }

/-- A registry whose endpoints were registered in the order `/b`, `/a`. -/
def regBA : AgentRegistryState :=
  { base_url := "http://example.com", name := "Demo", slug := "demo",
    version := "1.0", description := "demo agent", capabilities := [],
    workflows := [], action_endpoints := [("/b", epB), ("/a", epA)],
    schema_definitions := [] }

/-- A registry with every identity field empty and nothing registered. -/
def emptyCfgReg : AgentRegistryState :=
  { base_url := "", name := "", slug := "", version := "", description := "",
    capabilities := [], workflows := [], action_endpoints := [],
    schema_definitions := [] }

/-- An endpoint whose input model's schema carries a `$defs` block. -/
def epD : ActionEndpointInfo :=
  { name := "WithDefs", description := "uses a named type",
    action_type := "generate", response_template_md := none,
    input_schema := [("type", Json.str "object"),
      ("$defs", Json.obj [("D", Json.obj [("type", Json.str "string")])])],
    output_schema := trivSchema, schema_definitions := [], examples := none,
    route_path := "/d" }

/-- A registry holding `epD` with an empty `schema_definitions` table. -/
def regD : AgentRegistryState :=
  { base_url := "http://example.com", name := "DefAgent", slug := "defagent",
    version := "1.0", description := "agent with defs", capabilities := [],
    workflows := [], action_endpoints := [("/d", epD)],
    schema_definitions := [] }

/-! ## C1 — cyclic reference inlining -/

/-- C1: the claim says `_inline_references` terminates on cyclic
references by way of a visited set.  The code has no visited set: on the
self-referential table `cycDefs` the inlining never returns, whatever
recursion budget it is given — the fuel-indexed embedding yields `none`
for every fuel, which is the divergence of the source's unbounded
recursion. -/
theorem C1_cyclic_inlining_diverges :
    ∀ fuel : Nat, inline_references cycDefs fuel cycSchema = none := by
  intro fuel
  induction fuel with
  | zero => rfl
  | succ f ih => exact ih

/-! ## C5 — slugify examples -/

/-- C5 counterexample: the claim asserts
`slugify "  A///B  " = "a-b"`, but the code first deletes every character
outside word characters, whitespace and hyphens — the slashes vanish
before any hyphen can be produced — so the result is `"ab"`. -/
theorem C5_slugify_slash_counterexample :
    slugify "  A///B  " = "ab" ∧ "ab" ≠ "a-b" :=
  ⟨rfl, by decide⟩

/-- C5 (amended): slugify is a pure total function (lowercase, strip
characters outside word chars / whitespace / hyphen, collapse whitespace
and hyphen runs to one hyphen, trim hyphens), with
`slugify "Python Code Assistant" = "python-code-assistant"`,
`slugify "  A///B  " = "ab"` (not `"a-b"`), and `slugify "" = ""`. -/
theorem C5_slugify_examples :
    slugify "Python Code Assistant" = "python-code-assistant" ∧
    slugify "  A///B  " = "ab" ∧ slugify "" = "" :=
  ⟨rfl, rfl, rfl⟩

/-- Lexicographic comparison of strings by code point, the order of
Python's `sorted` on the action paths. -/
def lexLe : List Char → List Char → Bool
  | [], _ => true
  | _ :: _, [] => false
  | a :: as, b :: bs => if a = b then lexLe as bs else decide (a < b)

/-- `a <= b` on strings, lexicographic by code point. -/
def strLe (a b : String) : Bool := lexLe a.data b.data

/-- Whether a list of paths is ascending. -/
def pathsSortedAsc : List String → Bool
  | [] => true
  | [_] => true
  | a :: b :: rest => strLe a b && pathsSortedAsc (b :: rest)

/-! ## C4 — manifest action ordering -/

/-- C4 counterexample: a registry whose endpoints were registered under
`/b` then `/a` generates its `actions` in exactly that registration
order, which is not ascending by path — `generate_manifest` never
sorts. -/
theorem C4_actions_not_sorted_counterexample :
    (generate_manifest regBA 5).bind (fun p => manifestActionPaths p.1) =
      some ["/b", "/a"] ∧
    pathsSortedAsc ["/b", "/a"] = false :=
  ⟨rfl, rfl⟩

/-- A successfully formatted action carries the endpoint's `route_path`
as its `path` field. -/
theorem format_action_endpoint_path (defs : List (String × Json))
    (info : ActionEndpointInfo) (fuel : Nat) (d' : List (String × Json))
    (a : Json) (h : format_action_endpoint defs info fuel = (d', some a)) :
    actionPathOf a = some info.route_path := by
  unfold format_action_endpoint at h
  split at h
  · exact absurd (congrArg Prod.snd h) (by simp)
  · split at h
    · exact absurd (congrArg Prod.snd h) (by simp)
    · have ha := congrArg Prod.snd h
      simp only at ha
      obtain ⟨rfl⟩ : some _ = some a := ha
      rfl

/-- The actions produced by `formatActions` carry, in order, the
`route_path`s of the endpoints in insertion order. -/
theorem formatActions_paths (fuel : Nat) :
    ∀ (eps : List (String × ActionEndpointInfo)) (defs d' : List (String × Json))
      (acts : List Json),
      formatActions fuel eps defs = some (d', acts) →
      acts.mapM actionPathOf = some (eps.map (fun kv => kv.2.route_path)) := by
  intro eps
  induction eps with
  | nil =>
    intro defs d' acts h
    obtain ⟨rfl, rfl⟩ : defs = d' ∧ [] = acts := by
      simpa [formatActions] using h
    rfl
  | cons kv rest ih =>
    intro defs d' acts h
    unfold formatActions at h
    split at h
    next d1 a heq =>
      cases hrest : formatActions fuel rest d1 with
      | none => rw [hrest] at h; simp at h
      | some p =>
        rw [hrest] at h
        obtain ⟨d2, acts'⟩ := p
        replace h : some (d2, a :: acts') = some (d', acts) := h
        obtain ⟨rfl, rfl⟩ : d2 = d' ∧ a :: acts' = acts := by
          constructor
          · exact congrArg Prod.fst (Option.some.inj h)
          · exact congrArg Prod.snd (Option.some.inj h)
        have hpath := format_action_endpoint_path _ _ _ _ _ heq
        have htail := ih d1 d2 acts' hrest
        rw [List.mapM_cons, hpath, htail]
        rfl
    next => simp at h

/-- C4 (amended): `generate_manifest` does not sort its `actions`; they
are emitted in the insertion order of `action_endpoints`, each carrying
its endpoint's `route_path`.  Two generations from the same registration
order agree, but different registration orders of the same set need not. -/
theorem C4_actions_in_registration_order (reg : AgentRegistryState)
    (fuel : Nat) (m : Json) (reg' : AgentRegistryState)
    (h : generate_manifest reg fuel = some (m, reg')) :
    manifestActionPaths m =
      some (reg.action_endpoints.map (fun kv => kv.2.route_path)) := by
  unfold generate_manifest at h
  split at h
  · simp at h
  next defs' actions heq =>
    injection h with h2
    injection h2 with hm hr
    subst hm
    have hfind : pyLookup ([
        ("name", Json.str reg.name),
        ("slug", Json.str reg.slug),
        ("version", Json.str reg.version),
        ("type", Json.str "external"),
        ("description", Json.str reg.description),
        ("baseUrl", Json.str reg.base_url),
        ("metaInfo", Json.obj []),
        ("capabilities", Json.arr reg.capabilities),
        ("actions", Json.arr actions)] ++
        (if reg.workflows.isEmpty then []
         else [("workflows", Json.arr reg.workflows)])) "actions" =
        some (Json.arr actions) := by
      simp [pyLookup, List.find?_append, List.find?]
    simp only [manifestActionPaths]
    rw [hfind]
    exact formatActions_paths fuel _ _ _ _ heq

/-- C4 witness: the theorem applied to the concrete registry `regBA`. -/
theorem C4_actions_in_registration_order_witness :
    manifestActionPaths (Json.obj [
      ("name", Json.str "Demo"),
      ("slug", Json.str "demo"),
      ("version", Json.str "1.0"),
      ("type", Json.str "external"),
      ("description", Json.str "demo agent"),
      ("baseUrl", Json.str "http://example.com"),
      ("metaInfo", Json.obj []),
      ("capabilities", Json.arr []),
      ("actions", Json.arr [
        Json.obj [
          ("name", Json.str "Beta"),
          ("slug", Json.str "beta"),
          ("actionType", Json.str "talk"),
          ("path", Json.str "/b"),
          ("method", Json.str "POST"),
          ("inputSchema", Json.obj [("type", Json.str "object")]),
          ("outputSchema", Json.obj [("type", Json.str "object")]),
          ("examples", Json.obj [("validRequests", Json.arr [])]),
          ("description", Json.str "second action"),
          ("isMDResponseEnabled", Json.bool false)],
        Json.obj [
          ("name", Json.str "Alpha"),
          ("slug", Json.str "alpha"),
          ("actionType", Json.str "talk"),
          ("path", Json.str "/a"),
          ("method", Json.str "POST"),
          ("inputSchema", Json.obj [("type", Json.str "object")]),
          ("outputSchema", Json.obj [("type", Json.str "object")]),
          ("examples", Json.obj [("validRequests", Json.arr [])]),
          ("description", Json.str "first action"),
          ("isMDResponseEnabled", Json.bool false)]])]) =
      some (regBA.action_endpoints.map (fun kv => kv.2.route_path)) :=
  C4_actions_in_registration_order regBA 5 _ regBA rfl

/-! ## C8 — configuration validation at manifest time -/

/-- C8 counterexample: with `base_url`, `name`, `version` and
`description` all empty, `generate_manifest` raises nothing and returns a
complete manifest whose identity fields are empty strings — there is no
configuration check anywhere in the function. -/
theorem C8_no_config_validation_counterexample :
    generate_manifest emptyCfgReg 1 =
      some (Json.obj [
        ("name", Json.str ""),
        ("slug", Json.str ""),
        ("version", Json.str ""),
        ("type", Json.str "external"),
        ("description", Json.str ""),
        ("baseUrl", Json.str ""),
        ("metaInfo", Json.obj []),
        ("capabilities", Json.arr []),
        ("actions", Json.arr [])], emptyCfgReg) ∧
    (generate_manifest emptyCfgReg 1).isSome = true :=
  ⟨rfl, rfl⟩

/-- C8 (amended): `generate_manifest` performs no validation of
`base_url`, `name`, `version` or `description`; whenever it returns a
manifest, that manifest simply embeds whatever values are configured,
empty or not. -/
theorem C8_manifest_reflects_config (reg : AgentRegistryState) (fuel : Nat)
    (m : Json) (reg' : AgentRegistryState)
    (h : generate_manifest reg fuel = some (m, reg')) :
    manifestField m "name" = some (.str reg.name) ∧
    manifestField m "baseUrl" = some (.str reg.base_url) ∧
    manifestField m "version" = some (.str reg.version) ∧
    manifestField m "description" = some (.str reg.description) := by
  unfold generate_manifest at h
  split at h
  · simp at h
  next defs' actions heq =>
    injection h with h2
    injection h2 with hm hr
    subst hm
    refine ⟨?_, ?_, ?_, ?_⟩ <;>
      simp [manifestField, pyLookup, List.find?_append, List.find?]

/-- C8 witness: the theorem applied to the empty-configured registry. -/
theorem C8_manifest_reflects_config_witness :
    manifestField (Json.obj [
      ("name", Json.str ""),
      ("slug", Json.str ""),
      ("version", Json.str ""),
      ("type", Json.str "external"),
      ("description", Json.str ""),
      ("baseUrl", Json.str ""),
      ("metaInfo", Json.obj []),
      ("capabilities", Json.arr []),
      ("actions", Json.arr [])]) "name" = some (.str emptyCfgReg.name) ∧
    manifestField (Json.obj [
      ("name", Json.str ""),
      ("slug", Json.str ""),
      ("version", Json.str ""),
      ("type", Json.str "external"),
      ("description", Json.str ""),
      ("baseUrl", Json.str ""),
      ("metaInfo", Json.obj []),
      ("capabilities", Json.arr []),
      ("actions", Json.arr [])]) "baseUrl" = some (.str emptyCfgReg.base_url) ∧
    manifestField (Json.obj [
      ("name", Json.str ""),
      ("slug", Json.str ""),
      ("version", Json.str ""),
      ("type", Json.str "external"),
      ("description", Json.str ""),
      ("baseUrl", Json.str ""),
      ("metaInfo", Json.obj []),
      ("capabilities", Json.arr []),
      ("actions", Json.arr [])]) "version" = some (.str emptyCfgReg.version) ∧
    manifestField (Json.obj [
      ("name", Json.str ""),
      ("slug", Json.str ""),
      ("version", Json.str ""),
      ("type", Json.str "external"),
      ("description", Json.str ""),
      ("baseUrl", Json.str ""),
      ("metaInfo", Json.obj []),
      ("capabilities", Json.arr []),
      ("actions", Json.arr [])]) "description" =
        some (.str emptyCfgReg.description) :=
  C8_manifest_reflects_config emptyCfgReg 1 _ emptyCfgReg rfl

/-! ## C9 — generate_manifest mutates registry state -/

/-- C9 counterexample: generating the manifest of `regD` merges the
input model's `$defs` block into the registry's `schema_definitions`,
which goes from empty to containing `D` — `generate_manifest` is not a
pure read of registry state. -/
theorem C9_generate_manifest_mutates_counterexample :
    (generate_manifest regD 5).map (fun p => p.2.schema_definitions) =
      some [("D", Json.obj [("type", Json.str "string")])] ∧
    regD.schema_definitions = [] ∧
    some [("D", Json.obj [("type", Json.str "string")])] ≠
      some ([] : List (String × Json)) :=
  ⟨rfl, rfl, by simp⟩

/-- C9 (amended): whenever `generate_manifest` returns, the registry's
`action_endpoints` and identity fields are unchanged, but
`schema_definitions` is replaced by the table accumulated while
extracting the actions' schemas (and, in the source, a stored
endpoint's metadata can additionally gain `response_template_content`
when its template file exists on disk). -/
theorem C9_generate_manifest_frame (reg : AgentRegistryState) (fuel : Nat)
    (m : Json) (reg' : AgentRegistryState)
    (h : generate_manifest reg fuel = some (m, reg')) :
    reg'.action_endpoints = reg.action_endpoints ∧
    reg'.name = reg.name ∧
    reg'.base_url = reg.base_url ∧
    reg'.slug = reg.slug ∧
    reg'.version = reg.version ∧
    reg'.description = reg.description ∧
    reg'.capabilities = reg.capabilities ∧
    reg'.workflows = reg.workflows := by
  unfold generate_manifest at h
  split at h
  · simp at h
  next defs' actions heq =>
    injection h with h2
    injection h2 with hm hr
    subst hr
    exact ⟨rfl, rfl, rfl, rfl, rfl, rfl, rfl, rfl⟩

/-- C9 witness: the frame theorem applied to the concrete registry `regD`. -/
theorem C9_generate_manifest_frame_witness :
    ({ regD with
        schema_definitions :=
          [("D", Json.obj [("type", Json.str "string")])] }).action_endpoints =
      regD.action_endpoints ∧
    ({ regD with
        schema_definitions :=
          [("D", Json.obj [("type", Json.str "string")])] }).name = regD.name ∧
    ({ regD with
        schema_definitions :=
          [("D", Json.obj [("type", Json.str "string")])] }).base_url =
      regD.base_url ∧
    ({ regD with
        schema_definitions :=
          [("D", Json.obj [("type", Json.str "string")])] }).slug = regD.slug ∧
    ({ regD with
        schema_definitions :=
          [("D", Json.obj [("type", Json.str "string")])] }).version =
      regD.version ∧
    ({ regD with
        schema_definitions :=
          [("D", Json.obj [("type", Json.str "string")])] }).description =
      regD.description ∧
    ({ regD with
        schema_definitions :=
          [("D", Json.obj [("type", Json.str "string")])] }).capabilities =
      regD.capabilities ∧
    ({ regD with
        schema_definitions :=
          [("D", Json.obj [("type", Json.str "string")])] }).workflows =
      regD.workflows :=
  C9_generate_manifest_frame regD 5 _ _ rfl

/-- The inliner never invents object keys: if a key occurs nowhere in
the input document and nowhere in the definitions table, it occurs
nowhere in the inlined output.  Claim C6 instantiates this with
`required`. -/
theorem inline_no_new_key (key : String) (defs : List (String × Json))
    (hdefs : defsKeyFree key defs = true) :
    ∀ fuel : Nat,
      (∀ s r, hasKeyJ key s = false →
        inline_references defs fuel s = some r → hasKeyJ key r = false) ∧
      (∀ kvs kvs', hasKeyKvs key kvs = false →
        inlineKvs defs fuel kvs = some kvs' → hasKeyKvs key kvs' = false) ∧
      (∀ items items', hasKeyList key items = false →
        inlineItems defs fuel items = some items' →
        hasKeyList key items' = false) := by
  have hbody : ∀ n body, pyLookup defs n = some body → hasKeyJ key body = false := by
    intro n body hfind
    simp only [pyLookup, Option.map_eq_some'] at hfind
    obtain ⟨kv, hkv, rfl⟩ := hfind
    have hmem := List.mem_of_find?_eq_some hkv
    have := List.all_eq_true.mp hdefs _ hmem
    simpa using this
  intro fuel
  induction fuel with
  | zero =>
    refine ⟨?_, ?_, ?_⟩ <;> intro a b _ h <;> exact absurd h (by simp [inline_references, inlineKvs, inlineItems])
  | succ f ih =>
    obtain ⟨ihJ, ihK, ihI⟩ := ih
    refine ⟨?_, ?_, ?_⟩
    · intro s r hs h
      cases s with
      | obj kvs =>
        simp only [inline_references] at h
        split at h
        next rstr heq =>
          split at h
          next body hbodyEq => exact ihJ _ _ (hbody _ _ hbodyEq) h
          next => cases h; exact hs
        next => cases h
        next =>
          cases hkv : inlineKvs defs f kvs with
          | none => rw [hkv] at h; cases h
          | some kvs' =>
            rw [hkv] at h
            cases h
            have : hasKeyKvs key kvs = false := hs
            exact ihK _ _ this hkv
      | str s => cases h; exact hs
      | num n => cases h; exact hs
      | bool b => cases h; exact hs
      | null => cases h; exact hs
      | arr items => cases h; exact hs
    · intro kvs kvs' hk h
      cases kvs with
      | nil => simp only [inlineKvs] at h; cases h; rfl
      | cons kv rest =>
        obtain ⟨k, v⟩ := kv
        have hk' : (decide (k = key) || hasKeyJ key v || hasKeyKvs key rest) = false := hk
        simp only [Bool.or_eq_false_iff] at hk'
        obtain ⟨⟨hk1, hk2⟩, hk3⟩ := hk'
        simp only [inlineKvs] at h
        by_cases hkd : k = "$defs"
        · rw [if_pos hkd] at h
          exact ihK _ _ hk3 h
        · rw [if_neg hkd] at h
          split at h
          next items =>
            obtain ⟨items', hi, h⟩ := Option.bind_eq_some.mp h
            obtain ⟨rest', hrest, h⟩ := Option.bind_eq_some.mp h
            cases h
            have hv : hasKeyList key items = false := by
              simpa [hasKeyJ] using hk2
            have h1 : hasKeyJ key (Json.arr items') = false := by
              simpa [hasKeyJ] using ihI _ _ hv hi
            exact Bool.or_eq_false_iff.mpr ⟨Bool.or_eq_false_iff.mpr ⟨hk1, h1⟩, ihK _ _ hk3 hrest⟩
          next =>
            obtain ⟨v', hv', h⟩ := Option.bind_eq_some.mp h
            obtain ⟨rest', hrest, h⟩ := Option.bind_eq_some.mp h
            cases h
            exact Bool.or_eq_false_iff.mpr ⟨Bool.or_eq_false_iff.mpr ⟨hk1, ihJ _ _ hk2 hv'⟩, ihK _ _ hk3 hrest⟩
    · intro items items' hi h
      cases items with
      | nil => simp only [inlineItems] at h; cases h; rfl
      | cons item rest =>
        have hi' : (hasKeyJ key item || hasKeyList key rest) = false := hi
        simp only [Bool.or_eq_false_iff] at hi'
        obtain ⟨hi1, hi2⟩ := hi'
        simp only [inlineItems] at h
        obtain ⟨item', hitem, h⟩ := Option.bind_eq_some.mp h
        obtain ⟨rest', hrest, h⟩ := Option.bind_eq_some.mp h
        cases h
        exact Bool.or_eq_false_iff.mpr ⟨ihJ _ _ hi1 hitem, ihI _ _ hi2 hrest⟩

/-- Membership in a `pySet` result comes from the old dict or is the new
pair. -/
theorem mem_pySet {α : Type} (k : String) (v : α) :
    ∀ (d : List (String × α)) (x : String × α),
      x ∈ pySet d k v → x ∈ d ∨ x = (k, v) := by
  intro d
  induction d with
  | nil => intro x hx; simpa [pySet] using hx
  | cons kv rest ih =>
    intro x hx
    obtain ⟨k', v'⟩ := kv
    simp only [pySet] at hx
    by_cases hk : k' = k
    · rw [if_pos hk] at hx
      rcases List.mem_cons.mp hx with h | h
      · right; rw [h, hk]
      · left; exact List.mem_cons_of_mem _ h
    · rw [if_neg hk] at hx
      rcases List.mem_cons.mp hx with h | h
      · left; rw [h]; exact List.mem_cons_self _ _
      · rcases ih x h with h' | h'
        · left; exact List.mem_cons_of_mem _ h'
        · right; exact h'

/-- Membership in a `pyUpdate` result comes from one of the two dicts. -/
theorem mem_pyUpdate {α : Type} :
    ∀ (o d : List (String × α)) (x : String × α),
      x ∈ pyUpdate d o → x ∈ d ∨ x ∈ o := by
  intro o
  induction o with
  | nil => intro d x hx; exact Or.inl hx
  | cons kv rest ih =>
    intro d x hx
    rcases ih _ x hx with h | h
    · rcases mem_pySet _ _ _ _ h with h' | h'
      · exact Or.inl h'
      · right; rw [h']; exact List.mem_cons_self _ _
    · right; exact List.mem_cons_of_mem _ h

/-- If a key occurs nowhere in a kvs list, each entry's key differs from
it and each value is free of it. -/
theorem hasKeyKvs_false_of_mem (key : String) :
    ∀ (kvs : List (String × Json)), hasKeyKvs key kvs = false →
      ∀ kv ∈ kvs, kv.1 ≠ key ∧ hasKeyJ key kv.2 = false := by
  intro kvs
  induction kvs with
  | nil => intro _ kv hm; cases hm
  | cons kv0 rest ih =>
    intro h kv hm
    obtain ⟨k, v⟩ := kv0
    have h' : (decide (k = key) || hasKeyJ key v || hasKeyKvs key rest) = false := h
    simp only [Bool.or_eq_false_iff] at h'
    obtain ⟨⟨h1, h2⟩, h3⟩ := h'
    rcases List.mem_cons.mp hm with hh | hh
    · rw [hh]; exact ⟨by simpa using h1, h2⟩
    · exact ih h3 kv hh

/-- Key-freeness survives filtering. -/
theorem hasKeyKvs_filter_false (key : String) (p : String × Json → Bool) :
    ∀ (kvs : List (String × Json)), hasKeyKvs key kvs = false →
      hasKeyKvs key (kvs.filter p) = false := by
  intro kvs
  induction kvs with
  | nil => intro _; rfl
  | cons kv rest ih =>
    intro h
    obtain ⟨k, v⟩ := kv
    have h' : (decide (k = key) || hasKeyJ key v || hasKeyKvs key rest) = false := h
    simp only [Bool.or_eq_false_iff] at h'
    obtain ⟨⟨h1, h2⟩, h3⟩ := h'
    by_cases hp : p (k, v)
    · simp only [List.filter, hp]
      exact Bool.or_eq_false_iff.mpr ⟨Bool.or_eq_false_iff.mpr ⟨h1, h2⟩, ih h3⟩
    · simp only [List.filter, Bool.not_eq_true] at hp ⊢
      rw [hp]
      exact ih h3

/-! ## C6 — the `required` key is not normalized -/

/-- C6 counterexample: the JSON schema pydantic emits for a model with
zero required fields has no `required` key, and `_extract_schema` passes
it through unchanged — the key is absent from the manifest's
`inputSchema`, not present as an empty list. -/
theorem C6_required_key_absent_counterexample :
    extract_schema [] [("properties", Json.obj []),
      ("title", Json.str "EmptyInput"), ("type", Json.str "object")] 10 =
      ([], some (Json.obj [("properties", Json.obj []),
        ("title", Json.str "EmptyInput"), ("type", Json.str "object")])) ∧
    pyLookup [("properties", Json.obj []),
      ("title", Json.str "EmptyInput"), ("type", Json.str "object")]
      "required" = none ∧
    hasKeyJ "required" (Json.obj [("properties", Json.obj []),
      ("title", Json.str "EmptyInput"), ("type", Json.str "object")]) = false :=
  ⟨rfl, rfl, rfl⟩

/-- C6 (amended): the extraction pipeline never adds a `required` key of
its own — when the model's schema and the registered definitions carry
no `required` key anywhere, neither does the emitted schema.  In
particular, for a model with zero required fields (whose pydantic schema
omits `required`), the key is absent from the manifest, not defaulted to
an empty list. -/
theorem C6_required_not_normalized (defs schema : List (String × Json))
    (fuel : Nat) (defs' : List (String × Json)) (r : Json)
    (h1 : hasKeyKvs "required" schema = false)
    (h2 : defsKeyFree "required" defs = true)
    (h : extract_schema defs schema fuel = (defs', some r)) :
    hasKeyJ "required" r = false := by
  unfold extract_schema at h
  split at h
  next dkvs hfound =>
    have hdm : ("$defs", Json.obj dkvs) ∈ schema := by
      simp only [pyLookup, Option.map_eq_some'] at hfound
      obtain ⟨kv, hkv, hv⟩ := hfound
      have hmem := List.mem_of_find?_eq_some hkv
      have hk := List.find?_some hkv
      simp only [decide_eq_true_eq] at hk
      obtain ⟨k0, v0⟩ := kv
      simp only at hk hv
      subst hk
      subst hv
      exact hmem
    have hdefsv : hasKeyJ "required" (Json.obj dkvs) = false :=
      (hasKeyKvs_false_of_mem _ _ h1 _ hdm).2
    have hdkvs : ∀ kv ∈ dkvs, hasKeyJ "required" kv.2 = false := by
      intro kv hm
      exact (hasKeyKvs_false_of_mem _ _ (by simpa [hasKeyJ] using hdefsv) kv hm).2
    have h2' : defsKeyFree "required" (pyUpdate defs dkvs) = true := by
      rw [defsKeyFree, List.all_eq_true]
      intro kv hm
      rcases mem_pyUpdate _ _ _ hm with hmm | hmm
      · have := List.all_eq_true.mp h2 _ hmm
        simpa using this
      · simpa using hdkvs _ hmm
    have hdel : hasKeyJ "required" (Json.obj (pyDelete schema "$defs")) = false := by
      have : hasKeyKvs "required" (pyDelete schema "$defs") = false :=
        hasKeyKvs_filter_false _ _ _ h1
      simpa [hasKeyJ] using this
    have hinj := congrArg Prod.snd h
    simp only at hinj
    exact (inline_no_new_key "required" _ h2' fuel).1 _ _ hdel hinj
  next => simp at h
  next =>
    have hs : hasKeyJ "required" (Json.obj schema) = false := by
      simpa [hasKeyJ] using h1
    have hinj := congrArg Prod.snd h
    simp only at hinj
    exact (inline_no_new_key "required" _ h2 fuel).1 _ _ hs hinj

/-- C6 witness: the amended theorem applied to the empty-model schema. -/
theorem C6_required_not_normalized_witness :
    hasKeyJ "required" (Json.obj [("properties", Json.obj []),
      ("title", Json.str "EmptyInput"), ("type", Json.str "object")]) = false :=
  C6_required_not_normalized [] [("properties", Json.obj []),
    ("title", Json.str "EmptyInput"), ("type", Json.str "object")] 10 [] _
    rfl rfl rfl

/-- A dict passing `isRefNodeOk` is a singleton string `$ref`. -/
theorem isRefNodeOk_eq (kvs : List (String × Json))
    (h : isRefNodeOk kvs = true) : ∃ s0, kvs = [("$ref", Json.str s0)] := by
  rcases kvs with _ | ⟨⟨k0, v0⟩, rest⟩
  · cases h
  · rcases rest with _ | ⟨kv1, rest'⟩
    · cases v0 with
      | str s0 =>
        refine ⟨s0, ?_⟩
        have : k0 = "$ref" := by simpa [isRefNodeOk] using h
        rw [this]
      | num n => simp [isRefNodeOk] at h
      | bool b => simp [isRefNodeOk] at h
      | null => simp [isRefNodeOk] at h
      | arr items => simp [isRefNodeOk] at h
      | obj kvs2 => simp [isRefNodeOk] at h
    · simp [isRefNodeOk] at h

/-- Core of claim C2: on ref-clean non-array input (as pydantic emits)
and a ref-clean definitions table, whatever `_inline_references` returns
is free of `$defs` keys and free of any `$ref` whose name the table
could have resolved. -/
theorem inline_self_contained (defs : List (String × Json))
    (hdefs : defsClean defs = true) :
    ∀ fuel : Nat,
      (∀ s r, isArrJ s = false → refCleanJ s = true →
        inline_references defs fuel s = some r →
        hasKeyJ "$defs" r = false ∧ hasResRefJ defs r = false) ∧
      (∀ kvs kvs', refCleanKvs kvs = true → inlineKvs defs fuel kvs = some kvs' →
        hasKeyKvs "$defs" kvs' = false ∧ hasResRefKvs defs kvs' = false ∧
        (∀ kk, pyLookup kvs kk = none → pyLookup kvs' kk = none)) ∧
      (∀ items items', refCleanList items = true →
        inlineItems defs fuel items = some items' →
        hasKeyList "$defs" items' = false ∧
        hasResRefList defs items' = false) := by
  have hbody : ∀ n body, pyLookup defs n = some body →
      refCleanJ body = true ∧ isArrJ body = false := by
    intro n body hfind
    simp only [pyLookup, Option.map_eq_some'] at hfind
    obtain ⟨kv, hkv, rfl⟩ := hfind
    have hmem := List.mem_of_find?_eq_some hkv
    have := List.all_eq_true.mp hdefs _ hmem
    simpa using this
  intro fuel
  induction fuel with
  | zero =>
    refine ⟨?_, ?_, ?_⟩
    · intro a b _ _ h
      exact absurd h (by simp [inline_references])
    · intro a b _ h
      exact absurd h (by simp [inlineKvs])
    · intro a b _ h
      exact absurd h (by simp [inlineItems])
  | succ f ih =>
    obtain ⟨ihJ, ihK, ihI⟩ := ih
    refine ⟨?_, ?_, ?_⟩
    · intro s r hna hs h
      cases s with
      | obj kvs =>
        simp only [inline_references] at h
        split at h
        next rstr heq =>
          have hcont : pyContains kvs "$ref" = true := by
            simp [pyContains, heq]
          have hok : isRefNodeOk kvs = true := by
            have hs' := hs
            simp only [refCleanJ, hcont, if_true] at hs'
            exact hs'
          obtain ⟨s0, rfl⟩ := isRefNodeOk_eq _ hok
          have hs0 : s0 = rstr := by
            simp [pyLookup, List.find?] at heq
            exact heq
          subst hs0
          split at h
          next body hbodyEq =>
            exact ihJ _ _ (hbody _ _ hbodyEq).2 (hbody _ _ hbodyEq).1 h
          next hnone =>
            cases h
            constructor
            · rfl
            · have hc : pyContains defs (ref_name s0) = false := by
                simp [pyContains, hnone]
              simp [hasResRefJ, hasResRefKvs, pyLookup, List.find?, hc]
        next => cases h
        next hnone =>
          cases hkv : inlineKvs defs f kvs with
          | none => rw [hkv] at h; cases h
          | some kvs' =>
            rw [hkv] at h
            cases h
            have hsk : refCleanKvs kvs = true := by
              have hcont : pyContains kvs "$ref" = false := by
                simp [pyContains, hnone]
              have hs' := hs
              simp only [refCleanJ, hcont, if_false, Bool.false_eq_true] at hs'
              exact hs'
            obtain ⟨h1, h2, h3⟩ := ihK _ _ hsk hkv
            refine ⟨h1, ?_⟩
            have href' : pyLookup kvs' "$ref" = none := h3 _ hnone
            simp [hasResRefJ, href', h2]
      | str s => cases h; exact ⟨rfl, rfl⟩
      | num n => cases h; exact ⟨rfl, rfl⟩
      | bool b => cases h; exact ⟨rfl, rfl⟩
      | null => cases h; exact ⟨rfl, rfl⟩
      | arr items => simp [isArrJ] at hna
    · intro kvs kvs' hk h
      cases kvs with
      | nil => simp only [inlineKvs] at h; cases h; exact ⟨rfl, rfl, fun kk hkk => hkk⟩
      | cons kv rest =>
        obtain ⟨k, v⟩ := kv
        have hk' : (refCleanJ v && refCleanKvs rest) = true := hk
        simp only [Bool.and_eq_true] at hk'
        obtain ⟨hkv, hkr⟩ := hk'
        simp only [inlineKvs] at h
        have hlook : ∀ kk, pyLookup ((k, v) :: rest) kk = none →
            pyLookup rest kk = none ∧ k ≠ kk := by
          intro kk hkk
          by_cases hke : k = kk
          · exfalso
            simp [pyLookup, List.find?, hke] at hkk
          · refine ⟨?_, hke⟩
            simpa [pyLookup, List.find?, hke] using hkk
        by_cases hkd : k = "$defs"
        · rw [if_pos hkd] at h
          obtain ⟨h1, h2, h3⟩ := ihK _ _ hkr h
          exact ⟨h1, h2, fun kk hkk => h3 _ (hlook kk hkk).1⟩
        · rw [if_neg hkd] at h
          split at h
          next items =>
            obtain ⟨items', hi, h⟩ := Option.bind_eq_some.mp h
            obtain ⟨rest', hrest, h⟩ := Option.bind_eq_some.mp h
            cases h
            have hil : refCleanList items = true := by
              simpa [refCleanJ] using hkv
            obtain ⟨hi1, hi2⟩ := ihI _ _ hil hi
            obtain ⟨h1, h2, h3⟩ := ihK _ _ hkr hrest
            refine ⟨?_, ?_, ?_⟩
            · exact Bool.or_eq_false_iff.mpr ⟨Bool.or_eq_false_iff.mpr
                ⟨by simpa using hkd, by simpa [hasKeyJ] using hi1⟩, h1⟩
            · exact Bool.or_eq_false_iff.mpr ⟨by simpa [hasResRefJ] using hi2, h2⟩
            · intro kk hkk
              obtain ⟨hr0, hne⟩ := hlook kk hkk
              simpa [pyLookup, List.find?, hne] using h3 _ hr0
          next hnotarr =>
            obtain ⟨v', hv', h⟩ := Option.bind_eq_some.mp h
            obtain ⟨rest', hrest, h⟩ := Option.bind_eq_some.mp h
            cases h
            have hvna : isArrJ v = false := by
              cases v with
              | arr items => exact absurd rfl (by intro hh; exact hnotarr items hh)
              | str s => rfl
              | num n => rfl
              | bool b => rfl
              | null => rfl
              | obj kvs2 => rfl
            obtain ⟨hj1, hj2⟩ := ihJ _ _ hvna hkv hv'
            obtain ⟨h1, h2, h3⟩ := ihK _ _ hkr hrest
            refine ⟨?_, ?_, ?_⟩
            · exact Bool.or_eq_false_iff.mpr ⟨Bool.or_eq_false_iff.mpr
                ⟨by simpa using hkd, hj1⟩, h1⟩
            · exact Bool.or_eq_false_iff.mpr ⟨hj2, h2⟩
            · intro kk hkk
              obtain ⟨hr0, hne⟩ := hlook kk hkk
              simpa [pyLookup, List.find?, hne] using h3 _ hr0
    · intro items items' hi h
      cases items with
      | nil => simp only [inlineItems] at h; cases h; exact ⟨rfl, rfl⟩
      | cons item rest =>
        have hi' : ((!isArrJ item && refCleanJ item) && refCleanList rest) = true := hi
        simp only [Bool.and_eq_true, Bool.not_eq_true'] at hi'
        obtain ⟨⟨hi0, hi1⟩, hi2⟩ := hi'
        simp only [inlineItems] at h
        obtain ⟨item', hitem, h⟩ := Option.bind_eq_some.mp h
        obtain ⟨rest', hrest, h⟩ := Option.bind_eq_some.mp h
        cases h
        obtain ⟨hj1, hj2⟩ := ihJ _ _ hi0 hi1 hitem
        obtain ⟨hl1, hl2⟩ := ihI _ _ hi2 hrest
        exact ⟨Bool.or_eq_false_iff.mpr ⟨hj1, hl1⟩,
          Bool.or_eq_false_iff.mpr ⟨hj2, hl2⟩⟩

/-- Each value of a ref-clean kvs list is ref-clean. -/
theorem refCleanKvs_mem :
    ∀ (kvs : List (String × Json)), refCleanKvs kvs = true →
      ∀ kv ∈ kvs, refCleanJ kv.2 = true := by
  intro kvs
  induction kvs with
  | nil => intro _ kv hm; cases hm
  | cons kv0 rest ih =>
    intro h kv hm
    have h' : (refCleanJ kv0.2 && refCleanKvs rest) = true := h
    simp only [Bool.and_eq_true] at h'
    rcases List.mem_cons.mp hm with hh | hh
    · rw [hh]; exact h'.1
    · exact ih h'.2 kv hh

/-- Ref-cleanliness of a kvs list survives filtering. -/
theorem refCleanKvs_filter (p : String × Json → Bool) :
    ∀ (kvs : List (String × Json)), refCleanKvs kvs = true →
      refCleanKvs (kvs.filter p) = true := by
  intro kvs
  induction kvs with
  | nil => intro _; rfl
  | cons kv rest ih =>
    intro h
    have h' : (refCleanJ kv.2 && refCleanKvs rest) = true := h
    simp only [Bool.and_eq_true] at h'
    by_cases hp : p kv
    · simp only [List.filter, hp]
      show (refCleanJ kv.2 && refCleanKvs (List.filter p rest)) = true
      simp only [Bool.and_eq_true]
      exact ⟨h'.1, ih h'.2⟩
    · simp only [List.filter, Bool.not_eq_true] at hp ⊢
      rw [hp]
      exact ih h'.2

/-- A key present in a filtered dict is present in the original. -/
theorem pyContains_filter (p : String × Json → Bool)
    (kvs : List (String × Json)) (k : String)
    (h : pyContains (kvs.filter p) k = true) : pyContains kvs k = true := by
  simp only [pyContains, pyLookup, Option.isSome_map', List.find?_isSome] at h ⊢
  obtain ⟨x, hx, hpx⟩ := h
  exact ⟨x, (List.mem_filter.mp hx).1, hpx⟩

/-- Every value of a ref-clean object is ref-clean. -/
theorem refCleanJ_obj_values (kvs : List (String × Json))
    (h : refCleanJ (Json.obj kvs) = true) :
    ∀ kv ∈ kvs, refCleanJ kv.2 = true := by
  by_cases hc : pyContains kvs "$ref" = true
  · simp only [refCleanJ, hc, if_true] at h
    obtain ⟨s0, rfl⟩ := isRefNodeOk_eq _ h
    intro kv hm
    rcases List.mem_cons.mp hm with hh | hh
    · rw [hh]; rfl
    · cases hh
  · have hc' : pyContains kvs "$ref" = false := by
      simpa using hc
    simp only [refCleanJ, hc', if_false, Bool.false_eq_true] at h
    exact refCleanKvs_mem _ h

/-! ## C2 — schema self-containment -/

/-- C2: for pydantic-shaped model schemas (ref-clean, with schema-valued
`$defs`) and a ref-clean registry table, whenever `_extract_schema`
returns, the returned schema contains no `$defs` key at any depth and no
`$ref` whose referenced name is present in the registry's updated
`schema_definitions` table — every remaining reference is one the table
could not resolve.  (On cyclic references the source never returns at
all, so the claim's cycle allowance is vacuous among returned schemas.) -/
theorem C2_extract_schema_self_contained (defs schema : List (String × Json))
    (fuel : Nat) (defs' : List (String × Json)) (r : Json)
    (h1 : refCleanJ (Json.obj schema) = true)
    (h2 : defsClean defs = true)
    (h3 : ∀ dkvs, pyLookup schema "$defs" = some (Json.obj dkvs) →
      dkvs.all (fun kv => !isArrJ kv.2) = true)
    (h : extract_schema defs schema fuel = (defs', some r)) :
    hasKeyJ "$defs" r = false ∧ hasResRefJ defs' r = false := by
  unfold extract_schema at h
  split at h
  next dkvs hfound =>
    have hd : pyUpdate defs dkvs = defs' := congrArg Prod.fst h
    have hr : inline_references (pyUpdate defs dkvs) fuel
        (Json.obj (pyDelete schema "$defs")) = some r := congrArg Prod.snd h
    have hdm : ("$defs", Json.obj dkvs) ∈ schema := by
      simp only [pyLookup, Option.map_eq_some'] at hfound
      obtain ⟨kv, hkv, hv⟩ := hfound
      have hmem := List.mem_of_find?_eq_some hkv
      have hk := List.find?_some hkv
      simp only [decide_eq_true_eq] at hk
      obtain ⟨k0, v0⟩ := kv
      simp only at hk hv
      subst hk
      subst hv
      exact hmem
    have hnotref : pyContains schema "$ref" = false := by
      by_cases hc : pyContains schema "$ref" = true
      · exfalso
        have hok : isRefNodeOk schema = true := by
          simp only [refCleanJ, hc, if_true] at h1
          exact h1
        obtain ⟨s0, rfl⟩ := isRefNodeOk_eq _ hok
        rcases List.mem_cons.mp hdm with hh | hh
        · exact absurd hh (by simp)
        · cases hh
      · simpa using hc
    have hkvs : refCleanKvs schema = true := by
      simp only [refCleanJ, hnotref, if_false, Bool.false_eq_true] at h1
      exact h1
    have hdclean : refCleanJ (Json.obj dkvs) = true :=
      refCleanKvs_mem _ hkvs _ hdm
    have hclean' : defsClean (pyUpdate defs dkvs) = true := by
      rw [defsClean, List.all_eq_true]
      intro kv hm
      rcases mem_pyUpdate _ _ _ hm with hmm | hmm
      · exact List.all_eq_true.mp h2 _ hmm
      · have ha := List.all_eq_true.mp (h3 dkvs hfound) _ hmm
        have hb := refCleanJ_obj_values _ hdclean _ hmm
        simp only [Bool.and_eq_true]
        exact ⟨hb, by simpa using ha⟩
    have hdel : refCleanJ (Json.obj (pyDelete schema "$defs")) = true := by
      have hnr : pyContains (pyDelete schema "$defs") "$ref" = false := by
        by_cases hc : pyContains (pyDelete schema "$defs") "$ref" = true
        · exact absurd (pyContains_filter _ _ _ hc) (by simp [hnotref])
        · simpa using hc
      simp only [refCleanJ, hnr, if_false, Bool.false_eq_true]
      exact refCleanKvs_filter _ _ hkvs
    subst hd
    exact (inline_self_contained _ hclean' fuel).1
      (Json.obj (pyDelete schema "$defs")) r rfl hdel hr
  next => exact absurd (congrArg Prod.snd h) (by simp)
  next =>
    have hd : defs = defs' := congrArg Prod.fst h
    have hr : inline_references defs fuel (Json.obj schema) = some r :=
      congrArg Prod.snd h
    subst hd
    exact (inline_self_contained _ h2 fuel).1 (Json.obj schema) r rfl h1 hr

/-- C2 witness: the theorem applied to a concrete model schema with one
resolvable reference. -/
theorem C2_extract_schema_self_contained_witness :
    hasKeyJ "$defs" (Json.obj [("type", Json.str "object"),
      ("properties", Json.obj [("d", Json.obj [("type", Json.str "string")])])]) =
      false ∧
    hasResRefJ [("D", Json.obj [("type", Json.str "string")])]
      (Json.obj [("type", Json.str "object"),
        ("properties", Json.obj [("d", Json.obj [("type", Json.str "string")])])]) =
      false :=
  C2_extract_schema_self_contained []
    [("type", Json.str "object"),
     ("$defs", Json.obj [("D", Json.obj [("type", Json.str "string")])]),
     ("properties", Json.obj [("d", Json.obj [("$ref", Json.str "#/$defs/D")])])]
    10 [("D", Json.obj [("type", Json.str "string")])] _ rfl rfl
    (by
      intro dkvs hd
      have hv : Json.obj [("D", Json.obj [("type", Json.str "string")])] =
          Json.obj dkvs := Option.some.inj hd
      obtain rfl : [("D", Json.obj [("type", Json.str "string")])] = dkvs := by
        injection hv
      rfl)
    rfl

/-! ## C3 — idempotent route registration -/

/-- Walk equation: empty route list. -/
theorem register_routes_nil (st : Registries) (pre : String) :
    register_routes st [] pre = st := by
  rw [register_routes]

/-- Walk equation: a plain route is skipped. -/
theorem register_routes_plain (st : Registries) (pre p : String)
    (rest : List RouteNode) :
    register_routes st (RouteNode.plain p :: rest) pre =
      register_routes st rest pre := by
  rw [register_routes]
  rintro _ _ _ ⟨⟩

/-- Walk equation: a top-level action route (not inside a mount) is
skipped. -/
theorem register_routes_action (st : Registries) (pre p : String)
    (info : ActionEndpointInfo) (rest : List RouteNode) :
    register_routes st (RouteNode.actionRoute p info :: rest) pre =
      register_routes st rest pre := by
  rw [register_routes]
  rintro _ _ _ ⟨⟩

/-- Walk equation: a mounted agent app has its direct decorated routes
registered, then its route tree walked, before the walk continues. -/
theorem register_routes_mount_some (st : Registries) (pre p slug : String)
    (aroutes rest : List RouteNode) :
    register_routes st (RouteNode.mount p (AppNode.mk (some slug) aroutes) :: rest) pre =
      register_routes
        (register_routes (registerDirect st slug (pre ++ rstripSlash p) aroutes)
          aroutes (pre ++ rstripSlash p)) rest pre := by
  rw [register_routes]

/-- Walk equation: a mounted app without a registry is only recursed
into. -/
theorem register_routes_mount_none (st : Registries) (pre p : String)
    (aroutes rest : List RouteNode) :
    register_routes st (RouteNode.mount p (AppNode.mk none aroutes) :: rest) pre =
      register_routes (register_routes st aroutes (pre ++ rstripSlash p)) rest pre := by
  rw [register_routes]

/-- `register_action_endpoint` keeps the set and order of registry slugs. -/
theorem slugs_register_action_endpoint (st : Registries) (slug path : String)
    (info : ActionEndpointInfo) :
    (register_action_endpoint st slug path info).map Prod.fst =
      st.map Prod.fst := by
  unfold register_action_endpoint
  rw [List.map_map]
  apply List.map_congr_left
  intro sr _
  by_cases hs : sr.1 = slug <;> simp [hs]

/-- `registerDirect` keeps the set and order of registry slugs. -/
theorem slugs_registerDirect (slug pre : String) :
    ∀ (routes : List RouteNode) (st : Registries),
      (registerDirect st slug pre routes).map Prod.fst = st.map Prod.fst := by
  intro routes
  induction routes with
  | nil => intro st; rfl
  | cons r rest ih =>
    intro st
    cases r with
    | actionRoute p info =>
      rw [registerDirect, ih, slugs_register_action_endpoint]
    | mount p app => exact ih st
    | plain p => exact ih st

/-- The walk keeps the set and order of registry slugs. -/
theorem slugs_register_routes (st : Registries) (rs : List RouteNode)
    (pre : String) :
    (register_routes st rs pre).map Prod.fst = st.map Prod.fst := by
  induction st, rs, pre using register_routes.induct with
  | case1 st pre => rw [register_routes_nil]
  | case2 st p oreg aroutes rest pre mountedPre st1 st2 ihA ihB ihC =>
    cases oreg with
    | some slug =>
      rw [register_routes_mount_some]
      exact ihC.trans (ihA.trans
        (slugs_registerDirect slug (pre ++ rstripSlash p) aroutes st))
    | none =>
      rw [register_routes_mount_none]
      exact ihC.trans ihA
  | case3 st head rest pre hne ih =>
    cases head with
    | mount p app =>
      obtain ⟨oreg, aroutes⟩ := app
      exact absurd rfl (hne p oreg aroutes)
    | plain p => rw [register_routes_plain]; exact ih
    | actionRoute p info => rw [register_routes_action]; exact ih

/-- The per-slug `action_endpoints` view after one registration depends
only on that view before it. -/
theorem endpointsView_register_action_endpoint (slug path : String)
    (info : ActionEndpointInfo) :
    ∀ (st t : Registries), endpointsView st = endpointsView t →
      endpointsView (register_action_endpoint st slug path info) =
        endpointsView (register_action_endpoint t slug path info) := by
  intro st
  induction st with
  | nil =>
    intro t h
    have ht : t = [] := by
      cases t with
      | nil => rfl
      | cons tr trest => simp [endpointsView] at h
    subst ht
    rfl
  | cons sr rest ih =>
    intro t h
    cases t with
    | nil => simp [endpointsView] at h
    | cons tr trest =>
      simp only [endpointsView, List.map_cons, List.cons.injEq,
        Prod.mk.injEq] at h
      obtain ⟨⟨h1, h2⟩, h3⟩ := h
      have htail := ih trest (by simpa [endpointsView] using h3)
      simp only [register_action_endpoint, List.map_cons, endpointsView] at htail ⊢
      rw [h1]
      by_cases hs : tr.1 = slug
      · simp only [hs, if_true, List.cons.injEq]
        exact ⟨by simp [h2], htail⟩
      · simp only [hs, if_false, List.cons.injEq]
        exact ⟨by simp [h1, h2], htail⟩

/-- The endpoints view after registering a mounted app's direct routes
depends only on the view beforehand. -/
theorem endpointsView_registerDirect (slug pre : String) :
    ∀ (routes : List RouteNode) (st t : Registries),
      endpointsView st = endpointsView t →
      endpointsView (registerDirect st slug pre routes) =
        endpointsView (registerDirect t slug pre routes) := by
  intro routes
  induction routes with
  | nil => intro st t h; exact h
  | cons r rest ih =>
    intro st t h
    cases r with
    | actionRoute p info =>
      exact ih _ _ (endpointsView_register_action_endpoint _ _ _ _ _ h)
    | mount p app => exact ih _ _ h
    | plain p => exact ih _ _ h

/-- The endpoints view after the whole walk depends only on the view the
walk starts from. -/
theorem endpointsView_register_routes (st : Registries) (rs : List RouteNode)
    (pre : String) :
    ∀ t, endpointsView st = endpointsView t →
      endpointsView (register_routes st rs pre) =
        endpointsView (register_routes t rs pre) := by
  induction st, rs, pre using register_routes.induct with
  | case1 st pre =>
    intro t h
    rw [register_routes_nil, register_routes_nil]
    exact h
  | case2 st p oreg aroutes rest pre mountedPre st1 st2 ihA ihB ihC =>
    intro t h
    cases oreg with
    | some slug =>
      rw [register_routes_mount_some, register_routes_mount_some]
      exact ihC _ (ihA _ (endpointsView_registerDirect _ _ _ _ _ h))
    | none =>
      rw [register_routes_mount_none, register_routes_mount_none]
      exact ihC _ (ihA _ h)
  | case3 st head rest pre hne ih =>
    intro t h
    cases head with
    | mount p app =>
      obtain ⟨oreg, aroutes⟩ := app
      exact absurd rfl (hne p oreg aroutes)
    | plain p =>
      rw [register_routes_plain, register_routes_plain]
      exact ih _ h
    | actionRoute p info =>
      rw [register_routes_action, register_routes_action]
      exact ih _ h

/-- The cleared view is determined by the registries' slugs alone. -/
theorem endpointsView_clearEndpoints (st : Registries) :
    endpointsView (clearEndpoints st) =
      (st.map Prod.fst).map
        (fun s => (s, ([] : List (String × ActionEndpointInfo)))) := by
  simp only [endpointsView, clearEndpoints, List.map_map]
  rfl

/-- C3: running `setup_agent_routes` twice over the same mounted
application tree leaves every registry with exactly the
`action_endpoints` mapping of a single run — the walk clears each
registry's endpoint map before re-walking, and the re-walk replays the
same deterministic registrations. -/
theorem C3_setup_agent_routes_idempotent (st : Registries) (app : AppNode) :
    endpointsView (setup_agent_routes (setup_agent_routes st app) app) =
      endpointsView (setup_agent_routes st app) := by
  obtain ⟨oreg, routes⟩ := app
  show endpointsView
      (register_routes (clearEndpoints (setup_agent_routes st (AppNode.mk oreg routes))) routes "") =
    endpointsView (register_routes (clearEndpoints st) routes "")
  apply endpointsView_register_routes
  rw [endpointsView_clearEndpoints, endpointsView_clearEndpoints]
  have hslugs : (setup_agent_routes st (AppNode.mk oreg routes)).map Prod.fst =
      st.map Prod.fst := by
    show (register_routes (clearEndpoints st) routes "").map Prod.fst =
      st.map Prod.fst
    rw [slugs_register_routes]
    simp [clearEndpoints, List.map_map]
  rw [hslugs]

/-! ## C7 — decoration failure behavior -/

/-- C7 counterexample: a handler named `process_data` with no
schema-capable parameter fails at decoration time, but the raised
pydantic validation error names the `ActionEndpointInfo` model and its
`input_model` field — the handler's name appears nowhere in the error,
against the claim's "descriptive error naming the handler". -/
theorem C7_error_does_not_name_handler_counterexample :
    agent_action ⟨"process_data", [PyAnnot.plain "str"],
      some (PyAnnot.model "OutputModel")⟩ =
      .error ⟨"ActionEndpointInfo", ["input_model"]⟩ ∧
    strContains
      (renderValidationError ⟨"ActionEndpointInfo", ["input_model"]⟩)
      "process_data" = false :=
  ⟨rfl, rfl⟩

/-- C7 (amended): when no declared parameter exposes schema extraction,
or the resolved output annotation is not a model type, decoration fails
immediately at decoration time (the wrapper is never produced, the
endpoint cannot silently vanish from the manifest) — but the error is
pydantic's validation error for `ActionEndpointInfo`, titled after that
model, not after the handler. -/
theorem C7_decoration_fails_fast (h : Handler)
    (hfail : validModelField (resolveInputModel h) = false ∨
      validModelField (resolveOutputModel h) = false) :
    ∃ e, agent_action h = .error e ∧ e.model_title = "ActionEndpointInfo" := by
  by_cases hcond : (validModelField (resolveInputModel h) &&
      validModelField (resolveOutputModel h)) = true
  · rw [Bool.and_eq_true] at hcond
    obtain ⟨h1, h2⟩ := hcond
    rcases hfail with hf | hf
    · rw [hf] at h1; cases h1
    · rw [hf] at h2; cases h2
  · refine ⟨⟨"ActionEndpointInfo",
      (if validModelField (resolveInputModel h) = true then []
       else ["input_model"]) ++
      (if validModelField (resolveOutputModel h) = true then []
       else ["output_model"])⟩, ?_, rfl⟩
    simp only [agent_action]
    rw [if_neg hcond]

/-- C7 witness: the amended theorem applied to the `process_data`
handler. -/
theorem C7_decoration_fails_fast_witness :
    ∃ e, agent_action ⟨"process_data", [PyAnnot.plain "str"],
      some (PyAnnot.model "OutputModel")⟩ = .error e ∧
      e.model_title = "ActionEndpointInfo" :=
  C7_decoration_fails_fast
    ⟨"process_data", [PyAnnot.plain "str"], some (PyAnnot.model "OutputModel")⟩
    (Or.inl rfl)

/-! ## C10 — slugify idempotence -/

/-- `Char.ofNat` on a valid (small) code point round-trips through
`toNat`. -/
theorem toNat_ofNat_valid (n : Nat) (h : n < 55296) :
    (Char.ofNat n).toNat = n := by
  rw [Char.ofNat, dif_pos (Or.inl h)]
  simp [Char.ofNatAux, Char.toNat, UInt32.toNat]

/-- ASCII lowering is idempotent. -/
theorem toLower_toLower (c : Char) : c.toLower.toLower = c.toLower := by
  unfold Char.toLower
  by_cases h : c.toNat ≥ 65 ∧ c.toNat ≤ 90
  · rw [if_pos h]
    have hv : (Char.ofNat (c.toNat + 32)).toNat = c.toNat + 32 :=
      toNat_ofNat_valid _ (by omega)
    rw [if_neg (by omega)]
  · rw [if_neg h, if_neg h]

/-- A word character is neither a hyphen nor whitespace. -/
theorem pyIsWordChar_not_sep (c : Char) (h : pyIsWordChar c = true) :
    isSep c = false := by
  have h1 : c ≠ '-' := by
    intro hc
    rw [hc] at h
    cases h
  have h2 : pyIsSpace c = false := by
    by_cases hs : pyIsSpace c = true
    · exfalso
      simp only [pyIsSpace, Bool.or_eq_true, decide_eq_true_eq] at hs
      rcases hs with ((((rfl | rfl) | rfl) | rfl) | rfl) | rfl <;> cases h
    · simpa using hs
  simp [isSep, h1, h2]

/-- The no-adjacent-hyphens relation an idempotent slug satisfies. -/
def Rh (a b : Char) : Prop := ¬(a = '-' ∧ b = '-')

/-- `squeezeHyphens` only keeps characters of its input. -/
theorem mem_squeezeHyphens :
    ∀ (l : List Char) (c : Char), c ∈ squeezeHyphens l → c ∈ l := by
  intro l
  induction l using squeezeHyphens.induct with
  | case1 => intro c hc; cases hc
  | case2 c0 => intro c hc; exact hc
  | case3 c1 c2 rest hif ih =>
    intro c hc
    rw [squeezeHyphens, if_pos hif] at hc
    simp only [Bool.and_eq_true, decide_eq_true_eq] at hif
    exact List.mem_cons_of_mem _ (ih c hc)
  | case4 c1 c2 rest hif ih =>
    intro c hc
    rw [squeezeHyphens, if_neg hif] at hc
    rcases List.mem_cons.mp hc with rfl | hc
    · exact List.mem_cons_self _ _
    · exact List.mem_cons_of_mem _ (ih c hc)

/-- `squeezeHyphens` keeps the head of its input. -/
theorem squeezeHyphens_head? :
    ∀ (l : List Char), (squeezeHyphens l).head? = l.head? := by
  intro l
  induction l using squeezeHyphens.induct with
  | case1 => rfl
  | case2 c0 => rfl
  | case3 c1 c2 rest hif ih =>
    rw [squeezeHyphens, if_pos hif, ih]
    simp only [Bool.and_eq_true, decide_eq_true_eq] at hif
    rw [hif.1, hif.2]
    rfl
  | case4 c1 c2 rest hif ih => rw [squeezeHyphens, if_neg hif]; rfl

/-- `squeezeHyphens` leaves no two adjacent hyphens. -/
theorem squeezeHyphens_chain :
    ∀ (l : List Char), List.Chain' Rh (squeezeHyphens l) := by
  intro l
  induction l using squeezeHyphens.induct with
  | case1 => simp [squeezeHyphens]
  | case2 c0 => simp [squeezeHyphens]
  | case3 c1 c2 rest hif ih => rw [squeezeHyphens, if_pos hif]; exact ih
  | case4 c1 c2 rest hif ih =>
    rw [squeezeHyphens, if_neg hif]
    rw [List.chain'_cons']
    refine ⟨?_, ih⟩
    intro y hy
    rw [squeezeHyphens_head? (c2 :: rest)] at hy
    obtain rfl : c2 = y := by simpa using hy
    intro ⟨ha, hb⟩
    exact hif (by simp [ha, hb])

/-- On a list with no adjacent hyphens, `squeezeHyphens` is the
identity. -/
theorem squeezeHyphens_id :
    ∀ (l : List Char), List.Chain' Rh l → squeezeHyphens l = l := by
  intro l
  induction l using squeezeHyphens.induct with
  | case1 => intro _; rfl
  | case2 c0 => intro _; rfl
  | case3 c1 c2 rest hif ih =>
    intro hch
    exfalso
    simp only [Bool.and_eq_true, decide_eq_true_eq] at hif
    have := (List.chain'_cons'.mp hch).1 c2 rfl
    exact this ⟨hif.1, hif.2⟩
  | case4 c1 c2 rest hif ih =>
    intro hch
    rw [squeezeHyphens, if_neg hif, ih (List.chain'_cons'.mp hch).2]

/-- The character-list pipeline of `slugify`. -/
def slugChars (cs : List Char) : List Char :=
  stripHyphens (squeezeHyphens
    (((cs.map Char.toLower).filter
        (fun c => pyIsWordChar c || pyIsSpace c || c = '-')).map
      (fun c => if isSep c then '-' else c)))

/-- `slugify` is the pipeline applied to the string's characters. -/
theorem slugify_eq (t : String) : slugify t = String.mk (slugChars t.data) := rfl

/-- What characterizes `slugify` output: only hyphen-fixed lowercase word
characters and hyphens, no two adjacent hyphens, and no hyphen at either
end. -/
def slugInvariant (cs : List Char) : Prop :=
  (∀ c ∈ cs, c = '-' ∨ (pyIsWordChar c = true ∧ c.toLower = c)) ∧
  List.Chain' Rh cs ∧ cs.head? ≠ some '-' ∧ cs.getLast? ≠ some '-'

/-- The head surviving `dropWhile` fails the predicate. -/
theorem dropWhile_head?_not {α : Type} (p : α → Bool) :
    ∀ (l : List α) (a : α), (List.dropWhile p l).head? = some a → p a = false := by
  intro l
  induction l with
  | nil => intro a h; cases h
  | cons b t ih =>
    intro a h
    by_cases hb : p b
    · rw [List.dropWhile_cons_of_pos hb] at h
      exact ih a h
    · rw [List.dropWhile_cons_of_neg hb] at h
      obtain rfl : b = a := by simpa using h
      simpa using hb

/-- `stripHyphens` as a composition of library drop operations. -/
theorem stripHyphens_eq (cs : List Char) :
    stripHyphens cs =
      List.rdropWhile (fun c => c = '-') (List.dropWhile (fun c => c = '-') cs) :=
  rfl

/-- Every slugify output satisfies the slug invariant. -/
theorem slugChars_invariant (cs : List Char) : slugInvariant (slugChars cs) := by
  set p : Char → Bool := fun c => c = '-' with hp
  set l0 : List Char := cs.map Char.toLower with hl0
  set l1 : List Char :=
    l0.filter (fun c => pyIsWordChar c || pyIsSpace c || c = '-') with hl1
  set l2 : List Char := l1.map (fun c => if isSep c then '-' else c) with hl2
  set l3 : List Char := squeezeHyphens l2 with hl3
  have hout : slugChars cs = List.rdropWhile p (List.dropWhile p l3) := rfl
  refine ⟨?_, ?_, ?_, ?_⟩
  · intro c hc
    rw [hout] at hc
    have hpre1 := List.rdropWhile_prefix p (List.dropWhile p l3)
    have hc3 : c ∈ l3 :=
      (List.dropWhile_suffix p).subset (hpre1.subset hc)
    have hc2 : c ∈ l2 := mem_squeezeHyphens _ _ hc3
    rw [hl2] at hc2
    obtain ⟨b, hb1, hb2⟩ := List.mem_map.mp hc2
    by_cases hsep : isSep b = true
    · left
      rw [← hb2, if_pos hsep]
    · right
      have hsep' : isSep b = false := by simpa using hsep
      rw [← hb2, if_neg (by simp [hsep'])]
      obtain ⟨hb0, hbp⟩ := List.mem_filter.mp hb1
      have hword : pyIsWordChar b = true := by
        simp only [Bool.or_eq_true, decide_eq_true_eq] at hbp
        rcases hbp with (hw | hs) | hh
        · exact hw
        · rw [show isSep b = true from by simp [isSep, hs]] at hsep'
          cases hsep'
        · rw [show isSep b = true from by simp [isSep, hh]] at hsep'
          cases hsep'
      refine ⟨hword, ?_⟩
      obtain ⟨a, _, ha⟩ := List.mem_map.mp hb0
      rw [← ha]
      exact toLower_toLower a
  · rw [hout]
    have hpre2 := List.rdropWhile_prefix p (List.dropWhile p l3)
    have hch2 := (squeezeHyphens_chain l2).suffix (List.dropWhile_suffix p)
    exact List.Chain'.prefix hch2 hpre2
  · rw [hout]
    intro hhead
    obtain ⟨t, ht⟩ := List.rdropWhile_prefix p (List.dropWhile p l3)
    have hh1 : (List.dropWhile p l3).head? = some '-' := by
      rw [← ht, List.head?_append, hhead]
      rfl
    have := dropWhile_head?_not p l3 '-' hh1
    simp [hp] at this
  · rw [hout]
    intro hlast
    have hne : List.rdropWhile p (List.dropWhile p l3) ≠ [] := by
      intro hnil
      rw [hnil] at hlast
      cases hlast
    have h1 := List.rdropWhile_last_not p (List.dropWhile p l3) hne
    rw [List.getLast?_eq_getLast _ hne] at hlast
    have : (List.rdropWhile p (List.dropWhile p l3)).getLast hne = '-' := by
      simpa using hlast
    rw [this] at h1
    simp [hp] at h1

/-- On lists satisfying the slug invariant, the pipeline is the
identity. -/
theorem slugChars_id (cs : List Char) (h : slugInvariant cs) :
    slugChars cs = cs := by
  obtain ⟨hmem, hchain, hhead, hlast⟩ := h
  have h0 : cs.map Char.toLower = cs := by
    have : ∀ c ∈ cs, Char.toLower c = id c := by
      intro c hc
      rcases hmem c hc with rfl | ⟨_, hfix⟩
      · rfl
      · exact hfix
    rw [List.map_congr_left this, List.map_id]
  have h1 : cs.filter (fun c => pyIsWordChar c || pyIsSpace c || c = '-') = cs := by
    rw [List.filter_eq_self]
    intro c hc
    rcases hmem c hc with rfl | ⟨hw, _⟩
    · rfl
    · simp [hw]
  have h2 : cs.map (fun c => if isSep c then '-' else c) = cs := by
    have : ∀ c ∈ cs, (if isSep c then '-' else c) = id c := by
      intro c hc
      rcases hmem c hc with rfl | ⟨hw, _⟩
      · rfl
      · rw [if_neg (by simp [pyIsWordChar_not_sep c hw])]
        rfl
    rw [List.map_congr_left this, List.map_id]
  have h3 : squeezeHyphens cs = cs := squeezeHyphens_id cs hchain
  have h4 : stripHyphens cs = cs := by
    rw [stripHyphens_eq]
    have hd : List.dropWhile (fun c => c = '-') cs = cs := by
      rw [List.dropWhile_eq_self_iff]
      intro hl
      have : cs.head? = some (cs.get ⟨0, hl⟩) := by
        cases cs with
        | nil => cases hl
        | cons a t => rfl
      intro hget
      apply hhead
      rw [this]
      simpa using hget
    rw [hd, List.rdropWhile_eq_self_iff]
    intro hl hget
    apply hlast
    rw [List.getLast?_eq_getLast _ hl]
    simpa using hget
  unfold slugChars
  rw [h0, h1, h2, h3, h4]

/-- C10: `slugify` is idempotent — every output is a fixed point: it
consists only of lowercase-stable word characters separated by single
hyphens, with no leading or trailing hyphen and no whitespace, and the
pipeline leaves such strings unchanged. -/
theorem C10_slugify_idempotent (s : String) :
    slugify (slugify s) = slugify s := by
  rw [slugify_eq s, slugify_eq (String.mk (slugChars s.data))]
  show String.mk (slugChars (slugChars s.data)) = String.mk (slugChars s.data)
  rw [slugChars_id _ (slugChars_invariant s.data)]
